import Mathlib

/-!
Verification of the IPO GMP scraper (`get_data_and_send.py`).

The core of the program is `parse_gmp_rows`, a single forward pass over a
flat sequence of table rows that groups data records under the most recently
seen section header.  We embed the rows as their observable string content,
the section mapping as an insertion-ordered association list, and the parse
as an `Option`-valued fold in which a positional cell access out of range
(Python `IndexError`) yields `none`.
-/

namespace IpoGmp

/-- Observable content of one `<tr>` element: the texts of its `<th>` cells
and the texts of its `<td>` cells, in document order. -/
structure Row where
  th : List String
  td : List String
  deriving DecidableEq

/-- One parsed IPO entry, mirroring the `row_data` dict built in
`parse_gmp_rows` (lines 73-81 of the source). -/
structure Record where
  sectionName : String
  name : String
  window : String
  price : String
  gmp : String
  gmp_percent : String
  subject_to : String
  deriving DecidableEq

/-- Whitespace characters removed by Python `str.strip()` on the texts at
hand (space, tab, newline, carriage return). -/
def isSpaceChar (c : Char) : Bool := c = ' ' || c = '\t' || c = '\n' || c = '\r'

/-- Drop leading and trailing whitespace from a character list. -/
def trimChars (l : List Char) : List Char :=
  ((l.dropWhile isSpaceChar).reverse.dropWhile isSpaceChar).reverse

/-- Embedding of BeautifulSoup `get_text(strip=True)` on a cell holding
plain text: strip surrounding whitespace. -/
def getTextStrip (s : String) : String := ⟨trimChars s.data⟩

/-- Split a character list at newline characters. -/
def splitOnNl : List Char → List (List Char)
  | [] => [[]]
  | c :: cs =>
    if c = '\n' then [] :: splitOnNl cs
    else
      match splitOnNl cs with
      | [] => [[c]]
      | g :: gs => (c :: g) :: gs

/-- Embedding of `list(cell.stripped_strings)`: the cell text splits at
structural line breaks into stripped, non-empty sub-strings (the source
documents the shape with the example "ICICI Prudential AMC\n(12 - 16 Dec)"). -/
def strippedStrings (s : String) : List String :=
  ((splitOnNl s.data).map (fun l => (⟨trimChars l⟩ : String))).filter (fun t => t ≠ "")

/-- The output mapping: Python dicts preserve insertion order, so we model
`Dict[str, List[dict]]` as an association list in insertion order. -/
abbrev Sections := List (String × List Record)

/-- Keys of the mapping, in insertion order. -/
def keysOf (m : Sections) : List String := m.map Prod.fst

/-- Embedding of `sections.setdefault(k, [])`: insert an empty list at a
fresh key at the end, leave an existing key untouched. -/
def setdefault (m : Sections) (k : String) : Sections :=
  if k ∈ keysOf m then m else m ++ [(k, [])]

/-- Embedding of `sections[k].append(r)`: append `r` to the list stored at
key `k` (a no-op on a missing key; the parser only calls it on present keys). -/
def appendAt (m : Sections) (k : String) (r : Record) : Sections :=
  m.map fun p => if p.1 = k then (p.1, p.2 ++ [r]) else p

/-- One step of the loop body of `parse_gmp_rows` (lines 46-83): process one
row given the mapping built so far and the current section cursor.  `none`
models the fatal `IndexError` on a data row with fewer than five cells. -/
def parseRow (m : Sections) (current : Option String) (row : Row) :
    Option (Sections × Option String) :=
  if row.th ≠ [] then
    let header_text := getTextStrip (row.th.headD "")
    if header_text ≠ "" then
      some (setdefault m header_text, some header_text)
    else
      some (m, current)
  else if row.td = [] then
    some (m, current)
  else
    match current with
    | none => some (m, current)
    | some cs =>
      let parts := strippedStrings (row.td.headD "")
      match row.td.get? 1, row.td.get? 2, row.td.get? 3, row.td.get? 4 with
      | some c1, some c2, some c3, some c4 =>
        some (appendAt m cs
          { sectionName := cs
            name := parts.headD ""
            window := parts.getD 1 ""
            price := getTextStrip c1
            gmp := getTextStrip c2
            gmp_percent := getTextStrip c3
            subject_to := getTextStrip c4 }, some cs)
      | _, _, _, _ => none

/-- The loop of `parse_gmp_rows`, threading the mapping and cursor. -/
def parseRows : List Row → Sections → Option String → Option Sections
  | [], m, _ => some m
  | row :: rows, m, current =>
    match parseRow m current row with
    | none => none
    | some (m2, c2) => parseRows rows m2 c2

/-- Embedding of `parse_gmp_rows` (lines 35-85): start with an empty mapping
and no current section. -/
def parse_gmp_rows (rows : List Row) : Option Sections :=
  parseRows rows [] none

/-- Total number of records summed over all sections of the mapping. -/
def countRecords (m : Sections) : Nat := (m.map (fun p => p.2.length)).sum

/-- Count of the spec's round-trip property read literally: data rows that
come after at least one header row (any row with `<th>` cells) and have at
least five data cells.  The flag records whether a header row was seen. -/
def countAfterAnyHeader : List Row → Bool → Nat
  | [], _ => 0
  | r :: rs, seen =>
    if r.th ≠ [] then countAfterAnyHeader rs true
    else (if seen = true ∧ 5 ≤ r.td.length then 1 else 0) + countAfterAnyHeader rs seen

/-- Count of data rows that come after at least one header row whose first
header cell has non-empty trimmed text (i.e. after a section has been
opened) and have at least five data cells. -/
def countAfterSection : List Row → Bool → Nat
  | [], _ => 0
  | r :: rs, seen =>
    if r.th ≠ [] then
      countAfterSection rs (seen || getTextStrip (r.th.headD "") != "")
    else (if seen = true ∧ 5 ≤ r.td.length then 1 else 0) + countAfterSection rs seen

/-- Precondition of the safety claim: every data row (a row with no `<th>`
cells and at least one `<td>` cell) that follows at least one header row has
at least five data cells.  The flag records whether a header row was seen. -/
def rowsWellFormed : List Row → Bool → Bool
  | [], _ => true
  | r :: rs, seen =>
    if r.th ≠ [] then rowsWellFormed rs true
    else (!seen || r.td = [] || decide (5 ≤ r.td.length)) && rowsWellFormed rs seen

/-- Sequence of the non-empty trimmed first-header-cell texts of the header
rows of the input, in document order. -/
def headerTexts : List Row → List String
  | [] => []
  | r :: rs =>
    if r.th ≠ [] then
      (if getTextStrip (r.th.headD "") ≠ "" then [getTextStrip (r.th.headD "")] else [])
        ++ headerTexts rs
    else headerTexts rs

/-- Deduplicate a list keeping the first occurrence of each element, in
order of first appearance. -/
def firstAppearances : List String → List String
  | [] => []
  | x :: xs => x :: firstAppearances (xs.filter (fun y => y ≠ x))
termination_by l => l.length
decreasing_by
  simp only [List.length_cons]
  exact Nat.lt_succ_of_le (List.length_filter_le _ _)

/-- The fixed placeholder body produced when no sections were parsed
(line 130 of the source). -/
def noDataMsg : String := "<p>No GMP table data could be parsed from the page.</p>"

/-- The static table header block of the HTML report (lines 148-159). -/
def tableHeaderHtml : String :=
  "\n        <table border=\"1\" cellpadding=\"6\" cellspacing=\"0\"\n               style=\"border-collapse: collapse; font-family: Arial, sans-serif; font-size: 14px;\">\n            <tr style=\"background-color:#f2f2f2; font-weight:bold;\">\n                <th>IPO Name</th>\n                <th>Bidding Window</th>\n                <th>Price</th>\n                <th>GMP</th>\n                <th>GMP %</th>\n                <th>Subject To</th>\n            </tr>\n        "

/-- One `<tr>` block of the HTML report for one record (lines 163-172). -/
def recordHtml (ipo : Record) : String :=
  "\n            <tr>\n                <td>" ++ ipo.name ++
  "</td>\n                <td>" ++ ipo.window ++
  "</td>\n                <td>" ++ ipo.price ++
  "</td>\n                <td>" ++ ipo.gmp ++
  "</td>\n                <td>" ++ ipo.gmp_percent ++
  "</td>\n                <td>" ++ ipo.subject_to ++
  "</td>\n            </tr>\n            "

/-- The HTML fragments appended for one section (lines 140-174). -/
def sectionHtml (p : String × List Record) : List String :=
  ("<h3>" ++ p.1 ++ "</h3>") ::
    (if p.2 = [] then ["<p>No rows</p>"]
     else [tableHeaderHtml] ++ p.2.map recordHtml ++ ["</table><br/>"])

/-- Embedding of the Reporter portion of `scrape_site` (lines 129-178): the
empty mapping yields the fixed placeholder; otherwise the HTML body is the
newline join of the accumulated fragments. -/
def buildBody (m : Sections) : String :=
  if m = [] then noDataMsg
  else
    String.intercalate "\n"
      (["<html><body>", "<h2>IPO GMP Summary</h2>"] ++
        (m.map sectionHtml).flatten ++ ["</body></html>"])

/-- The sentinel body returned on HTTP 403 (lines 114-117). -/
def blockedMsg : String :=
  "<p>Scraping blocked by the website (HTTP 403 Forbidden). They may be blocking bots / scripts.</p>"

/-- Outcome of the status handling at the top of `scrape_site`. -/
inductive FetchOutcome where
  | blocked : FetchOutcome
  | proceed : FetchOutcome
  deriving DecidableEq

/-- Embedding of the status-code handling of `scrape_site` (lines 112-119):
403 returns the sentinel body; `raise_for_status` raises exactly on 4xx and
5xx status codes (modelled as `Except.error status`); any other status
falls through to parsing and report building. -/
def handleStatus (status : Nat) : Except Nat FetchOutcome :=
  if status = 403 then .ok .blocked
  else if 400 ≤ status ∧ status < 600 then .error status
  else .ok .proceed

/-! Equation lemmas characterising one step of the parser, one per shape of
the incoming row. -/

/-- A header row with non-empty trimmed first-cell text opens (or re-opens)
that section and makes it current. -/
theorem parseRow_header_open (m : Sections) (c : Option String) (t : String)
    (ts td : List String) (h : getTextStrip t ≠ "") :
    parseRow m c ⟨t :: ts, td⟩ =
      some (setdefault m (getTextStrip t), some (getTextStrip t)) := by
  simp [parseRow, h]

/-- A header row with empty trimmed first-cell text changes nothing. -/
theorem parseRow_header_empty (m : Sections) (c : Option String) (t : String)
    (ts td : List String) (h : getTextStrip t = "") :
    parseRow m c ⟨t :: ts, td⟩ = some (m, c) := by
  simp [parseRow, h]

/-- A row with no cells at all is skipped. -/
theorem parseRow_td_nil (m : Sections) (c : Option String) :
    parseRow m c ⟨[], []⟩ = some (m, c) := rfl

/-- A data row before any section is open is skipped. -/
theorem parseRow_no_section (m : Sections) (td : List String) :
    parseRow m none ⟨[], td⟩ = some (m, none) := by
  cases td <;> rfl

/-- A data row with at least five cells, while a section is open, appends
the positionally extracted record to that section. -/
theorem parseRow_data_long (m : Sections) (cs c0 c1 c2 c3 c4 : String)
    (rest : List String) :
    parseRow m (some cs) ⟨[], c0 :: c1 :: c2 :: c3 :: c4 :: rest⟩ =
      some (appendAt m cs
        { sectionName := cs
          name := (strippedStrings c0).headD ""
          window := (strippedStrings c0).getD 1 ""
          price := getTextStrip c1
          gmp := getTextStrip c2
          gmp_percent := getTextStrip c3
          subject_to := getTextStrip c4 }, some cs) := rfl

/-- A data row with one cell, while a section is open, is a fatal index
error. -/
theorem parseRow_short1 (m : Sections) (cs c0 : String) :
    parseRow m (some cs) ⟨[], [c0]⟩ = none := rfl

/-- A data row with two cells, while a section is open, is a fatal index
error. -/
theorem parseRow_short2 (m : Sections) (cs c0 c1 : String) :
    parseRow m (some cs) ⟨[], [c0, c1]⟩ = none := rfl

/-- A data row with three cells, while a section is open, is a fatal index
error. -/
theorem parseRow_short3 (m : Sections) (cs c0 c1 c2 : String) :
    parseRow m (some cs) ⟨[], [c0, c1, c2]⟩ = none := rfl

/-- A data row with four cells, while a section is open, is a fatal index
error. -/
theorem parseRow_short4 (m : Sections) (cs c0 c1 c2 c3 : String) :
    parseRow m (some cs) ⟨[], [c0, c1, c2, c3]⟩ = none := rfl

/-! Lemmas about the mapping operations. -/

/-- Keys of an appended pair. -/
theorem keysOf_append_single (m : Sections) (k : String) (l : List Record) :
    keysOf (m ++ [(k, l)]) = keysOf m ++ [k] := by
  simp [keysOf]

/-- The key passed to `setdefault` is present afterwards. -/
theorem mem_keysOf_setdefault (m : Sections) (k : String) :
    k ∈ keysOf (setdefault m k) := by
  unfold setdefault
  split
  · assumption
  · simp [keysOf]

/-- Existing keys survive `setdefault`. -/
theorem keysOf_setdefault_mono (m : Sections) (k k2 : String)
    (h : k ∈ keysOf m) : k ∈ keysOf (setdefault m k2) := by
  unfold setdefault
  split
  · exact h
  · simp [keysOf]
    exact Or.inl (by simpa [keysOf] using h)

/-- `setdefault` preserves distinctness of the keys. -/
theorem keysOf_setdefault_nodup (m : Sections) (k : String)
    (h : (keysOf m).Nodup) : (keysOf (setdefault m k)).Nodup := by
  unfold setdefault
  split
  · exact h
  · rename_i hk
    rw [keysOf_append_single]
    simp [List.nodup_append, h]
    exact hk

/-- `setdefault` does not change the total record count. -/
theorem countRecords_setdefault (m : Sections) (k : String) :
    countRecords (setdefault m k) = countRecords m := by
  unfold setdefault
  split
  · rfl
  · simp [countRecords]

/-- Unfolding of `appendAt` on a non-empty mapping. -/
theorem appendAt_cons (p : String × List Record) (t : Sections) (k : String)
    (r : Record) :
    appendAt (p :: t) k r =
      (if p.1 = k then (p.1, p.2 ++ [r]) else p) :: appendAt t k r := rfl

/-- Unfolding of `countRecords` on a non-empty mapping. -/
theorem countRecords_cons (p : String × List Record) (t : Sections) :
    countRecords (p :: t) = p.2.length + countRecords t := by
  simp [countRecords]

/-- `appendAt` does not change the keys. -/
theorem keysOf_appendAt (m : Sections) (k : String) (r : Record) :
    keysOf (appendAt m k r) = keysOf m := by
  induction m with
  | nil => rfl
  | cons p t ih =>
    rw [appendAt_cons]
    by_cases hp : p.1 = k <;> simp [hp, keysOf, ih] <;>
      simpa [keysOf] using ih

/-- `appendAt` at an absent key is the identity. -/
theorem appendAt_of_not_mem (m : Sections) (k : String) (r : Record)
    (h : k ∉ keysOf m) : appendAt m k r = m := by
  induction m with
  | nil => rfl
  | cons p t ih =>
    simp only [keysOf, List.map_cons, List.mem_cons, not_or] at h
    rw [appendAt_cons, if_neg (fun hc => h.1 hc.symm)]
    rw [ih (by simpa [keysOf] using h.2)]

/-- `appendAt` at a present key of a duplicate-free mapping adds exactly one
record. -/
theorem countRecords_appendAt (m : Sections) (k : String) (r : Record)
    (hnd : (keysOf m).Nodup) (hm : k ∈ keysOf m) :
    countRecords (appendAt m k r) = countRecords m + 1 := by
  induction m with
  | nil => simp [keysOf] at hm
  | cons p t ih =>
    simp only [keysOf, List.map_cons, List.nodup_cons] at hnd
    simp only [keysOf, List.map_cons, List.mem_cons] at hm
    by_cases hp : p.1 = k
    · have ht : appendAt t k r = t :=
        appendAt_of_not_mem t k r (by simpa [keysOf, hp] using hnd.1)

      rw [appendAt_cons, if_pos hp, ht, countRecords_cons, countRecords_cons]
      simp
      omega
    · rcases hm with hm | hm
      · exact absurd hm.symm hp
      · have := ih (by simpa [keysOf] using hnd.2) hm
        rw [appendAt_cons, if_neg hp, countRecords_cons, countRecords_cons, this]
        omega

/-! Invariants of the parsing loop, proved by induction over the row list
with the accumulated mapping and cursor generalised. -/

/-- Loop invariant for record counting: a successful run of the loop adds to
the accumulated mapping exactly one record per data row with at least five
cells encountered while a section is open. -/
theorem parseRows_count_inv (rows : List Row) :
    ∀ (acc : Sections) (c : Option String) (m : Sections),
      (keysOf acc).Nodup → (∀ k, c = some k → k ∈ keysOf acc) →
      parseRows rows acc c = some m →
      countRecords m = countRecords acc + countAfterSection rows c.isSome := by
  induction rows with
  | nil =>
    intro acc c m _ _ h
    simp only [parseRows, Option.some.injEq] at h
    subst h
    simp [countAfterSection]
  | cons row rows ih =>
    intro acc c m hnd hc h
    obtain ⟨th, td⟩ := row
    rcases th with _ | ⟨t, ts⟩
    · rcases td with _ | ⟨c0, td1⟩
      · simp only [parseRows, parseRow_td_nil] at h
        rw [ih acc c m hnd hc h]
        simp [countAfterSection]
      · rcases c with _ | cs
        · simp only [parseRows, parseRow_no_section] at h
          rw [ih acc none m hnd (by simp) h]
          simp [countAfterSection]
        · rcases td1 with _ | ⟨c1, td2⟩
          · simp [parseRows, parseRow_short1] at h
          rcases td2 with _ | ⟨c2, td3⟩
          · simp [parseRows, parseRow_short2] at h
          rcases td3 with _ | ⟨c3, td4⟩
          · simp [parseRows, parseRow_short3] at h
          rcases td4 with _ | ⟨c4, rest⟩
          · simp [parseRows, parseRow_short4] at h
          simp only [parseRows, parseRow_data_long] at h
          have hcs : cs ∈ keysOf acc := hc cs rfl
          have h1 := ih _ (some cs) m
            (by rw [keysOf_appendAt]; exact hnd)
            (by intro k hk; cases hk; rw [keysOf_appendAt]; exact hcs) h
          rw [h1, countRecords_appendAt _ _ _ hnd hcs]
          simp only [countAfterSection]
          simp
          omega
    · by_cases ht : getTextStrip t = ""
      · simp only [parseRows, parseRow_header_empty acc c t ts td ht] at h
        rw [ih acc c m hnd hc h]
        simp [countAfterSection, ht]
      · simp only [parseRows, parseRow_header_open acc c t ts td ht] at h
        have h1 := ih _ (some (getTextStrip t)) m
          (keysOf_setdefault_nodup acc _ hnd)
          (by intro k hk; cases hk; exact mem_keysOf_setdefault acc _) h
        rw [h1, countRecords_setdefault]
        have hb : (getTextStrip t != "") = true := bne_iff_ne.mpr ht
        simp [countAfterSection, hb]

/-- Unfolding of the well-formedness check at a header row. -/
theorem rowsWellFormed_header (t : String) (ts td : List String)
    (rows : List Row) (seen : Bool) :
    rowsWellFormed (⟨t :: ts, td⟩ :: rows) seen = rowsWellFormed rows true := by
  simp [rowsWellFormed]

/-- Unfolding of the well-formedness check at a non-header row. -/
theorem rowsWellFormed_data (td : List String) (rows : List Row)
    (seen : Bool) :
    rowsWellFormed (⟨[], td⟩ :: rows) seen =
      ((!seen || decide (td = []) || decide (5 ≤ td.length)) &&
        rowsWellFormed rows seen) := by
  simp [rowsWellFormed]

/-- Loop invariant for safety: if every data row seen after a header row has
at least five cells, the loop never hits a fatal index error.  The `seen`
flag over-approximates the cursor: whenever a section is open, a header row
has been seen. -/
theorem parseRows_wf_isSome (rows : List Row) :
    ∀ (acc : Sections) (c : Option String) (seen : Bool),
      (c.isSome = true → seen = true) →
      rowsWellFormed rows seen = true →
      (parseRows rows acc c).isSome = true := by
  induction rows with
  | nil => intro acc c seen _ _; simp [parseRows]
  | cons row rows ih =>
    intro acc c seen hcs hwf
    obtain ⟨th, td⟩ := row
    rcases th with _ | ⟨t, ts⟩
    · rw [rowsWellFormed_data, Bool.and_eq_true] at hwf
      rcases td with _ | ⟨c0, td1⟩
      · simp only [parseRows, parseRow_td_nil]
        exact ih acc c seen hcs hwf.2
      · rcases c with _ | cs
        · simp only [parseRows, parseRow_no_section]
          exact ih acc none seen hcs hwf.2
        · have hseen : seen = true := hcs rfl
          have hlen : 5 ≤ (c0 :: td1).length := by
            have h1 := hwf.1
            rw [hseen] at h1
            simpa using h1
          rcases td1 with _ | ⟨c1, td2⟩
          · simp at hlen
          rcases td2 with _ | ⟨c2, td3⟩
          · simp at hlen
          rcases td3 with _ | ⟨c3, td4⟩
          · simp at hlen
          rcases td4 with _ | ⟨c4, rest⟩
          · simp at hlen
          simp only [parseRows, parseRow_data_long]
          exact ih _ (some cs) seen (fun _ => hseen) hwf.2
    · rw [rowsWellFormed_header] at hwf
      by_cases ht : getTextStrip t = ""
      · simp only [parseRows, parseRow_header_empty acc c t ts td ht]
        exact ih acc c true (fun _ => rfl) hwf
      · simp only [parseRows, parseRow_header_open acc c t ts td ht]
        exact ih _ (some (getTextStrip t)) true (fun _ => rfl) hwf

/-- `setdefault` at a present key is the identity. -/
theorem setdefault_of_mem (m : Sections) (k : String) (h : k ∈ keysOf m) :
    setdefault m k = m := by
  unfold setdefault
  exact if_pos h

/-- `setdefault` at an absent key appends a fresh empty section. -/
theorem setdefault_of_not_mem (m : Sections) (k : String)
    (h : k ∉ keysOf m) : setdefault m k = m ++ [(k, [])] := by
  unfold setdefault
  exact if_neg h

/-- Unfolding of `headerTexts` at a header row that opens a section. -/
theorem headerTexts_header_open (t : String) (ts td : List String)
    (rows : List Row) (h : getTextStrip t ≠ "") :
    headerTexts (⟨t :: ts, td⟩ :: rows) = getTextStrip t :: headerTexts rows := by
  simp [headerTexts, h]

/-- Unfolding of `headerTexts` at a header row with empty trimmed text. -/
theorem headerTexts_header_empty (t : String) (ts td : List String)
    (rows : List Row) (h : getTextStrip t = "") :
    headerTexts (⟨t :: ts, td⟩ :: rows) = headerTexts rows := by
  simp [headerTexts, h]

/-- Unfolding of `headerTexts` at a non-header row. -/
theorem headerTexts_data (td : List String) (rows : List Row) :
    headerTexts (⟨[], td⟩ :: rows) = headerTexts rows := by
  simp [headerTexts]

/-- Loop invariant for section order: a successful run of the loop appends
to the accumulated keys the not-yet-present section-opening header texts in
order of first appearance. -/
theorem parseRows_keys_inv (rows : List Row) :
    ∀ (acc : Sections) (c : Option String) (m : Sections),
      parseRows rows acc c = some m →
      keysOf m = keysOf acc ++
        firstAppearances
          ((headerTexts rows).filter (fun t => !decide (t ∈ keysOf acc))) := by
  induction rows with
  | nil =>
    intro acc c m h
    simp only [parseRows, Option.some.injEq] at h
    subst h
    simp [headerTexts, firstAppearances]
  | cons row rows ih =>
    intro acc c m h
    obtain ⟨th, td⟩ := row
    rcases th with _ | ⟨t, ts⟩
    · rw [headerTexts_data]
      rcases td with _ | ⟨c0, td1⟩
      · simp only [parseRows, parseRow_td_nil] at h
        exact ih acc c m h
      · rcases c with _ | cs
        · simp only [parseRows, parseRow_no_section] at h
          exact ih acc none m h
        · rcases td1 with _ | ⟨c1, td2⟩
          · simp [parseRows, parseRow_short1] at h
          rcases td2 with _ | ⟨c2, td3⟩
          · simp [parseRows, parseRow_short2] at h
          rcases td3 with _ | ⟨c3, td4⟩
          · simp [parseRows, parseRow_short3] at h
          rcases td4 with _ | ⟨c4, rest⟩
          · simp [parseRows, parseRow_short4] at h
          simp only [parseRows, parseRow_data_long] at h
          have h1 := ih _ (some cs) m h
          rwa [keysOf_appendAt] at h1
    · by_cases ht : getTextStrip t = ""
      · rw [headerTexts_header_empty t ts td rows ht]
        simp only [parseRows, parseRow_header_empty acc c t ts td ht] at h
        exact ih acc c m h
      · rw [headerTexts_header_open t ts td rows ht]
        simp only [parseRows, parseRow_header_open acc c t ts td ht] at h
        by_cases hmem : getTextStrip t ∈ keysOf acc
        · rw [setdefault_of_mem acc _ hmem] at h
          rw [List.filter_cons_of_neg (by simp [hmem])]
          exact ih acc _ m h
        · rw [setdefault_of_not_mem acc _ hmem] at h
          have h1 := ih _ (some (getTextStrip t)) m h
          rw [keysOf_append_single] at h1
          rw [List.filter_cons_of_pos (by simp [hmem])]
          rw [firstAppearances]
          rw [List.filter_filter]
          rw [h1, List.append_assoc]
          congr 1
          rw [List.singleton_append]
          congr 1
          refine congrArg firstAppearances ?_
          refine List.filter_congr ?_
          intro x _
          by_cases h2 : x ∈ keysOf acc <;> by_cases h3 : x = getTextStrip t <;>
            simp [h2, h3, List.mem_append]

/-- Every record stored in the mapping is tagged with the name of the
section that holds it. -/
def SectionTagged (m : Sections) : Prop :=
  ∀ p ∈ m, ∀ r ∈ p.2, r.sectionName = p.1

/-- `setdefault` preserves section tagging: the fresh section is empty. -/
theorem sectionTagged_setdefault (m : Sections) (k : String)
    (h : SectionTagged m) : SectionTagged (setdefault m k) := by
  unfold setdefault
  split
  · exact h
  · intro p hp r hr
    rcases List.mem_append.mp hp with hp | hp
    · exact h p hp r hr
    · simp only [List.mem_singleton] at hp
      subst hp
      simp at hr

/-- `appendAt` preserves section tagging when the new record is tagged with
the key it is appended at. -/
theorem sectionTagged_appendAt (m : Sections) (k : String) (r0 : Record)
    (h : SectionTagged m) (hr0 : r0.sectionName = k) :
    SectionTagged (appendAt m k r0) := by
  intro p hp r hr
  unfold appendAt at hp
  rcases List.mem_map.mp hp with ⟨q, hq, hpq⟩
  by_cases hqk : q.1 = k
  · rw [if_pos hqk] at hpq
    subst hpq
    rcases List.mem_append.mp hr with hr | hr
    · exact h q hq r hr
    · simp only [List.mem_singleton] at hr
      subst hr
      rw [hr0]
      exact hqk.symm
  · rw [if_neg hqk] at hpq
    subst hpq
    exact h q hq r hr

/-- Loop invariant for tagging: a successful run of the loop preserves the
tagging of every stored record with its section name. -/
theorem parseRows_tagged (rows : List Row) :
    ∀ (acc : Sections) (c : Option String) (m : Sections),
      SectionTagged acc → parseRows rows acc c = some m → SectionTagged m := by
  induction rows with
  | nil =>
    intro acc c m hta h
    simp only [parseRows, Option.some.injEq] at h
    subst h
    exact hta
  | cons row rows ih =>
    intro acc c m hta h
    obtain ⟨th, td⟩ := row
    rcases th with _ | ⟨t, ts⟩
    · rcases td with _ | ⟨c0, td1⟩
      · simp only [parseRows, parseRow_td_nil] at h
        exact ih acc c m hta h
      · rcases c with _ | cs
        · simp only [parseRows, parseRow_no_section] at h
          exact ih acc none m hta h
        · rcases td1 with _ | ⟨c1, td2⟩
          · simp [parseRows, parseRow_short1] at h
          rcases td2 with _ | ⟨c2, td3⟩
          · simp [parseRows, parseRow_short2] at h
          rcases td3 with _ | ⟨c3, td4⟩
          · simp [parseRows, parseRow_short3] at h
          rcases td4 with _ | ⟨c4, rest⟩
          · simp [parseRows, parseRow_short4] at h
          simp only [parseRows, parseRow_data_long] at h
          exact ih _ (some cs) m (sectionTagged_appendAt acc cs _ hta rfl) h
    · by_cases ht : getTextStrip t = ""
      · simp only [parseRows, parseRow_header_empty acc c t ts td ht] at h
        exact ih acc c m hta h
      · simp only [parseRows, parseRow_header_open acc c t ts td ht] at h
        exact ih _ _ m (sectionTagged_setdefault acc _ hta) h

/-! Concrete rows used as examples and witnesses. -/

/-- A header row with a single header cell and no data cells. -/
def headerRow (s : String) : Row := ⟨[s], []⟩

/-- The five data cells of the running example from the spec. -/
def acmeCells : List String :=
  ["Acme Corp\n(1 - 5 Jan)", "₹100", "₹20", "20%", "Retail"]

/-- The data row of the running example. -/
def acmeRow : Row := ⟨[], acmeCells⟩

/-- The record the parser extracts from `acmeRow` under section `sec`. -/
def acmeRecord (sec : String) : Record :=
  ⟨sec, "Acme Corp", "(1 - 5 Jan)", "₹100", "₹20", "20%", "Retail"⟩

/-! The claims. -/

/-- C1: a header row "Mainboard IPO" followed by the Acme data row parses to
the single-section mapping holding the expected record; in general cell 0
splits into name (first sub-string) and window (second sub-string, empty if
absent) and cells 1-4 map positionally to price, gmp, gmp_percent and
subject_to. -/
theorem claim_positional_parse :
    parse_gmp_rows [headerRow "Mainboard IPO", acmeRow] =
      some [("Mainboard IPO", [acmeRecord "Mainboard IPO"])] ∧
    ∀ (m : Sections) (cs c0 c1 c2 c3 c4 : String) (rest : List String),
      parseRow m (some cs) ⟨[], c0 :: c1 :: c2 :: c3 :: c4 :: rest⟩ =
        some (appendAt m cs
          { sectionName := cs
            name := (strippedStrings c0).headD ""
            window := (strippedStrings c0).getD 1 ""
            price := getTextStrip c1
            gmp := getTextStrip c2
            gmp_percent := getTextStrip c3
            subject_to := getTextStrip c4 }, some cs) :=
  ⟨by decide, fun m cs c0 c1 c2 c3 c4 rest =>
    parseRow_data_long m cs c0 c1 c2 c3 c4 rest⟩

/-- C2: a record is appended only to the section opened by the most recent
preceding header row; data rows before the first header row are silently
dropped; in particular `[data, header "SME IPO", data]` yields exactly one
record, under "SME IPO". -/
theorem claim_section_routing :
    parse_gmp_rows [acmeRow, headerRow "SME IPO", acmeRow] =
      some [("SME IPO", [acmeRecord "SME IPO"])] ∧
    (∀ (m : Sections) (row : Row), row.th = [] →
      parseRow m none row = some (m, none)) ∧
    (∀ (m m2 : Sections) (cs : String) (c2 : Option String) (row : Row),
      row.th = [] → parseRow m (some cs) row = some (m2, c2) →
      c2 = some cs ∧ (m2 = m ∨ ∃ r : Record, m2 = appendAt m cs r)) := by
  refine ⟨by decide, ?_, ?_⟩
  · intro m row hth
    rcases row with ⟨th, td⟩
    dsimp only at hth
    subst hth
    exact parseRow_no_section m td
  · intro m m2 cs c2 row hth h
    rcases row with ⟨th, td⟩
    dsimp only at hth
    subst hth
    rcases td with _ | ⟨c0, td1⟩
    · rw [parseRow_td_nil] at h
      simp only [Option.some.injEq, Prod.mk.injEq] at h
      exact ⟨h.2.symm, Or.inl h.1.symm⟩
    · rcases td1 with _ | ⟨c1, td2⟩
      · rw [parseRow_short1] at h
        exact Option.noConfusion h
      rcases td2 with _ | ⟨c2x, td3⟩
      · rw [parseRow_short2] at h
        exact Option.noConfusion h
      rcases td3 with _ | ⟨c3, td4⟩
      · rw [parseRow_short3] at h
        exact Option.noConfusion h
      rcases td4 with _ | ⟨c4, rest⟩
      · rw [parseRow_short4] at h
        exact Option.noConfusion h
      rw [parseRow_data_long] at h
      simp only [Option.some.injEq, Prod.mk.injEq] at h
      exact ⟨h.2.symm, Or.inr ⟨_, h.1.symm⟩⟩

/-- C2 witness: the generic parts of the routing claim applied to concrete
inputs. -/
theorem claim_section_routing_witness :
    parseRow [] none ⟨[], ["x"]⟩ = some ([], none) ∧
    ((some "S" : Option String) = some "S" ∧
      (([] : Sections) = [] ∨ ∃ r : Record, ([] : Sections) = appendAt [] "S" r)) :=
  ⟨claim_section_routing.2.1 [] ⟨[], ["x"]⟩ rfl,
   claim_section_routing.2.2 [] [] "S" (some "S") ⟨[], []⟩ rfl rfl⟩

/-- C3 counterexample: a header row whose trimmed text is empty counts as a
header row but does not open a section, so the data row after it is dropped
while the claim counts it: the claimed equality fails on this input. -/
theorem claim_record_count_counterexample :
    ¬ ((parse_gmp_rows [headerRow " ", acmeRow]).map countRecords =
        some (countAfterAnyHeader [headerRow " ", acmeRow] false)) ∧
    (parse_gmp_rows [headerRow " ", acmeRow]).map countRecords = some 0 ∧
    countAfterAnyHeader [headerRow " ", acmeRow] false = 1 := by
  decide

/-- C3 (amended): on a successfully parsed row sequence, the total number of
records over all sections equals the number of data rows that come after at
least one section-opening header row (one with non-empty trimmed header
text) and have at least five data cells. -/
theorem claim_record_count (rows : List Row) (m : Sections)
    (h : parse_gmp_rows rows = some m) :
    countRecords m = countAfterSection rows false := by
  have h1 := parseRows_count_inv rows [] none m (by simp [keysOf])
    (by intro k hk; cases hk) h
  simpa [countRecords] using h1

/-- C3 witness: the amended count equality at a concrete input. -/
theorem claim_record_count_witness :
    countRecords [("Mainboard IPO", [acmeRecord "Mainboard IPO"])] =
      countAfterSection [headerRow "Mainboard IPO", acmeRow] false :=
  claim_record_count [headerRow "Mainboard IPO", acmeRow] _ (by decide)

/-- C4: a data row with at least one but fewer than five cells after a
header row makes the parse fail fatally (the embedding returns `none` in
place of the Python `IndexError`); under the precondition that every data
row following a header row has at least five data cells, no cell access
fails. -/
theorem claim_short_row_safety :
    parse_gmp_rows [headerRow "SME IPO", ⟨[], ["Lone Cell"]⟩] = none ∧
    ∀ rows : List Row, rowsWellFormed rows false = true →
      (parse_gmp_rows rows).isSome = true := by
  refine ⟨by decide, ?_⟩
  intro rows hwf
  exact parseRows_wf_isSome rows [] none false (by simp) hwf

/-- C4 witness: a well-formed concrete sequence parses successfully. -/
theorem claim_short_row_safety_witness :
    rowsWellFormed [headerRow "SME IPO", acmeRow] false = true ∧
    (parse_gmp_rows [headerRow "SME IPO", acmeRow]).isSome = true :=
  ⟨by decide, claim_short_row_safety.2 [headerRow "SME IPO", acmeRow] (by decide)⟩

/-- C5: a header row naming an already-existing section neither resets nor
duplicates that section's record list (section creation is idempotent), and
subsequent data rows append to the same list. -/
theorem claim_idempotent_sections :
    (∀ (m : Sections) (c : Option String) (row : Row),
        row.th ≠ [] → getTextStrip (row.th.headD "") ≠ "" →
        getTextStrip (row.th.headD "") ∈ keysOf m →
        parseRow m c row = some (m, some (getTextStrip (row.th.headD "")))) ∧
    parse_gmp_rows
        [headerRow "SME IPO", acmeRow, headerRow "SME IPO", acmeRow] =
      some [("SME IPO", [acmeRecord "SME IPO", acmeRecord "SME IPO"])] := by
  refine ⟨?_, by decide⟩
  intro m c row hth hne hmem
  rcases row with ⟨th, td⟩
  rcases th with _ | ⟨t, ts⟩
  · exact absurd rfl hth
  · rw [parseRow_header_open m c t ts td (by exact hne),
      setdefault_of_mem m _ (by exact hmem)]
    rfl

/-- C5 witness: re-opening a populated section leaves it untouched. -/
theorem claim_idempotent_sections_witness :
    parseRow [("SME IPO", [acmeRecord "SME IPO"])] (some "SME IPO")
        (headerRow "SME IPO") =
      some ([("SME IPO", [acmeRecord "SME IPO"])], some "SME IPO") :=
  claim_idempotent_sections.1 [("SME IPO", [acmeRecord "SME IPO"])]
    (some "SME IPO") (headerRow "SME IPO") (by decide) (by decide) (by decide)

/-- C6: the order of section names in the output mapping is the order in
which each section's header text first appears in the input (insertion
order, no sorting). -/
theorem claim_section_order (rows : List Row) (m : Sections)
    (h : parse_gmp_rows rows = some m) :
    keysOf m = firstAppearances (headerTexts rows) := by
  have h1 := parseRows_keys_inv rows [] none m h
  simpa [keysOf] using h1

/-- C6 witness: headers out of alphabetical order keep document order. -/
theorem claim_section_order_witness :
    keysOf [("SME IPO", []), ("Mainboard IPO", [])] =
      firstAppearances
        (headerTexts [headerRow "SME IPO", headerRow "Mainboard IPO"]) :=
  claim_section_order [headerRow "SME IPO", headerRow "Mainboard IPO"] _
    (by decide)

/-- C7: the empty row sequence parses to the empty mapping, and the Reporter
renders the empty mapping as the fixed "no data" placeholder message. -/
theorem claim_empty_no_data :
    parse_gmp_rows [] = some [] ∧
    buildBody [] = "<p>No GMP table data could be parsed from the page.</p>" :=
  ⟨rfl, rfl⟩

/-- C8 counterexample: status 304 is neither a 2xx success nor 403, yet the
code does not fail there: `raise_for_status` raises only on 4xx/5xx, so a
3xx final status falls through to parsing. -/
theorem claim_fetch_status_counterexample :
    ¬ (200 ≤ 304 ∧ 304 < 300) ∧ (304 : Nat) ≠ 403 ∧
    handleStatus 304 = Except.ok FetchOutcome.proceed :=
  ⟨by decide, by decide, rfl⟩

/-- C8 (amended): HTTP 403 yields the sentinel "blocked" body and execution
continues; every 4xx/5xx status other than 403 propagates a fatal error with
no retry; statuses outside 400-599 fall through to parsing. -/
theorem claim_fetch_status (s : Nat) :
    handleStatus 403 = Except.ok FetchOutcome.blocked ∧
    (400 ≤ s → s < 600 → s ≠ 403 → handleStatus s = Except.error s) ∧
    (s < 400 ∨ 600 ≤ s → handleStatus s = Except.ok FetchOutcome.proceed) := by
  refine ⟨rfl, ?_, ?_⟩
  · intro h1 h2 h3
    unfold handleStatus
    rw [if_neg h3, if_pos ⟨h1, h2⟩]
  · intro h
    unfold handleStatus
    have h3 : s ≠ 403 := by omega
    have h4 : ¬ (400 ≤ s ∧ s < 600) := by omega
    rw [if_neg h3, if_neg h4]

/-- C8 witness: the amended status behaviour at concrete statuses. -/
theorem claim_fetch_status_witness :
    handleStatus 500 = Except.error 500 ∧
    handleStatus 200 = Except.ok FetchOutcome.proceed :=
  ⟨(claim_fetch_status 500).2.1 (by decide) (by decide) (by decide),
   (claim_fetch_status 200).2.2 (Or.inl (by decide))⟩

/-- C9: a header row whose first header cell trims to the empty string is
skipped entirely: it changes neither the mapping nor the current section,
its data cells are never consumed, and later data rows still append to the
previously opened section. -/
theorem claim_empty_header_skipped :
    (∀ (m : Sections) (c : Option String) (row : Row),
        row.th ≠ [] → getTextStrip (row.th.headD "") = "" →
        parseRow m c row = some (m, c)) ∧
    parse_gmp_rows [headerRow "Mainboard IPO", ⟨[" "], ["x"]⟩, acmeRow] =
      some [("Mainboard IPO", [acmeRecord "Mainboard IPO"])] := by
  refine ⟨?_, by decide⟩
  intro m c row hth h
  rcases row with ⟨th, td⟩
  rcases th with _ | ⟨t, ts⟩
  · exact absurd rfl hth
  · exact parseRow_header_empty m c t ts td (by exact h)

/-- C9 witness: an all-whitespace header row with stray data cells is a
no-op. -/
theorem claim_empty_header_skipped_witness :
    parseRow [("A", [])] (some "A") ⟨["  "], ["x", "y"]⟩ =
      some ([("A", [])], some "A") :=
  claim_empty_header_skipped.1 [("A", [])] (some "A") ⟨["  "], ["x", "y"]⟩
    (by decide) (by decide)

/-- C10: every record in the output mapping carries a section field equal to
the name of the section whose list contains it. -/
theorem claim_records_tagged (rows : List Row) (m : Sections)
    (h : parse_gmp_rows rows = some m) :
    (m.all fun p => p.2.all fun r => r.sectionName == p.1) = true := by
  have h1 := parseRows_tagged rows [] none m
    (by intro p hp; exact absurd hp (List.not_mem_nil p)) h
  simp only [List.all_eq_true, beq_iff_eq]
  intro p hp r hr
  exact h1 p hp r hr

/-- C10 witness: the tagging invariant at a concrete parse. -/
theorem claim_records_tagged_witness :
    (([("SME IPO", [acmeRecord "SME IPO"])] : Sections).all
      fun p => p.2.all fun r => r.sectionName == p.1) = true :=
  claim_records_tagged [headerRow "SME IPO", acmeRow] _ (by decide)

end IpoGmp
